import Mathlib

/-!
Shallow embedding of the GHA→Argo workflow converter
(`workflow-merger/gha-conerter/main.go`) and its queue-backed service,
with theorems settling the specification claims.

Strings are modelled as Lean `String` (lists of characters); Go's
`strings.ToLower` is modelled character-wise (ASCII case folding, the
range relevant to DNS-1123 labels).
-/

namespace GhaConverter

/-- Character class `[a-z0-9-]` of the Go regex `nonDNSSafeRegex`
(`[^a-z0-9-]+`), by character codes: `a`..`z` = 97..122, `0`..`9` = 48..57,
`-` = 45. -/
def dnsSafe (c : Char) : Bool :=
  (97 ≤ c.toNat && c.toNat ≤ 122) || (48 ≤ c.toNat && c.toNat ≤ 57) || c.toNat == 45

/-- `nonDNSSafeRegex.ReplaceAllString(name, "-")`: every maximal run of
characters outside `[a-z0-9-]` is replaced by a single `-`.  The boolean
argument records whether the previous character was part of an unsafe run. -/
def collapseAux : Bool → List Char → List Char
  | _, [] => []
  | prevUnsafe, c :: cs =>
    if dnsSafe c then c :: collapseAux false cs
    else if prevUnsafe then collapseAux true cs
    else '-' :: collapseAux true cs

def collapseUnsafe (l : List Char) : List Char := collapseAux false l

/-- Leading half of `edgeDashRegex.ReplaceAllString(name, "")` (`^-+`). -/
def stripLeading (l : List Char) : List Char := l.dropWhile (fun c => c == '-')

/-- Trailing half of `edgeDashRegex.ReplaceAllString(name, "")` (`-+$`):
removes the maximal trailing run of `-`. -/
def stripTrailing : List Char → List Char
  | [] => []
  | c :: cs =>
    match stripTrailing cs with
    | [] => if c == '-' then [] else [c]
    | r => c :: r

/-- `sanitizeName` from `main.go`: empty input → `"unnamed"`; lowercase;
collapse runs outside `[a-z0-9-]` to `-`; strip edge dashes; truncate
to 63 characters. -/
def sanitizeName (s : String) : String :=
  if s = "" then "unnamed"
  else
    String.mk
      ((stripTrailing (stripLeading (collapseUnsafe (s.data.map Char.toLower)))).take 63)

/-- `strings.Contains`, over character lists: `isPrefixList sub l` is true
when `sub` is an initial segment of `l`. -/
def isPrefixList : List Char → List Char → Bool
  | [], _ => true
  | _ :: _, [] => false
  | a :: as, b :: bs => a == b && isPrefixList as bs

/-- `strings.Contains(hay, sub)`: some suffix of `hay` starts with `sub`. -/
def containsSub (sub : List Char) : List Char → Bool
  | [] => isPrefixList sub []
  | c :: cs => isPrefixList sub (c :: cs) || containsSub sub cs

def strContains (s sub : String) : Bool := containsSub sub.data s.data

/-- `mapRunsOnToImage` from `main.go`: ordered substring match, first
match wins, default `alpine:latest`. -/
def mapRunsOnToImage (runsOn : String) : String :=
  if strContains runsOn "ubuntu-22.04" || strContains runsOn "ubuntu-latest" then
    "ubuntu:22.04"
  else if strContains runsOn "ubuntu-20.04" then
    "ubuntu:20.04"
  else
    "alpine:latest"

/-! ### Data model

The input side mirrors `nektos/act`'s `model.Workflow` restricted to the
fields `convertGHAtoArgo` reads; the output side mirrors the `wfv1`
structures restricted to the fields it writes. -/

/-- A GHA step: `Name`, `Run`, `Uses` (empty string = absent, as in Go),
and the `%v` rendering of the `With` map (`none` when `With == nil`). -/
structure GHAStep where
  name : String
  run : String
  uses : String
  withRendered : Option String
deriving DecidableEq, Repr

/-- A GHA job: its map key (`jobName`), `Steps`, `Needs()` and `RunsOn()`. -/
structure GHAJob where
  name : String
  steps : List GHAStep
  needs : List String
  runsOn : List String
deriving DecidableEq, Repr

/-- The parsed workflow (`ghaWF`): name plus jobs listed in one map
iteration order (Go map iteration order is unspecified; the list fixes
one such order). -/
structure WorkflowModel where
  name : String
  jobs : List GHAJob
deriving DecidableEq, Repr

/-- `wfv1.ScriptTemplate` restricted to the fields the converter sets. -/
structure ScriptTemplate where
  image : String
  command : List String
  source : String
deriving DecidableEq, Repr

/-- One entry of `wfv1.ParallelSteps` (`wfv1.WorkflowStep`). -/
structure WorkflowStep where
  name : String
  template : String
deriving DecidableEq, Repr

/-- `wfv1.DAGTask`: nil `Dependencies` is modelled as `[]`. -/
structure DAGTask where
  name : String
  template : String
  dependencies : List String
deriving DecidableEq, Repr

/-- `wfv1.Template` restricted to the fields the converter sets; `dag`
holds the task list of a `wfv1.DAGTemplate` when present. -/
structure Template where
  name : String
  steps : List (List WorkflowStep)
  script : Option ScriptTemplate
  dag : Option (List DAGTask)
deriving DecidableEq, Repr

/-- `wfv1.Workflow` restricted to the fields the converter sets. -/
structure ArgoWorkflow where
  generateName : String
  entrypoint : String
  templates : List Template
  parallelism : Int
deriving DecidableEq, Repr

/-! ### The converter (`convertGHAtoArgo`) -/

/-- Image chosen inside the step loop: `mapRunsOnToImage(runsOn[0])` when
`RunsOn()` is non-empty, else the hard default. -/
def baseImageOf (job : GHAJob) : String :=
  match job.runsOn with
  | [] => "alpine:latest"
  | r :: _ => mapRunsOnToImage r

/-- Step name: `sanitizeName(ghaStep.Name)`, falling back to `step-<i>`
when the sanitized name is empty. -/
def stepNameOf (i : Nat) (st : GHAStep) : String :=
  let sn := sanitizeName st.name
  if sn = "" then "step-" ++ toString i else sn

/-- The `wfv1.WorkflowStep` appended to the job template's `Steps`
(done for every step, before the `run`/`uses` check). -/
def stepRef (jobTemplateName : String) (i : Nat) (st : GHAStep) : WorkflowStep :=
  { name := stepNameOf i st
    template := jobTemplateName ++ "-" ++ stepNameOf i st }

/-- `"Parameters (with): %v"` rendering, empty when `With == nil`. -/
def withParamsOf (st : GHAStep) : String :=
  match st.withRendered with
  | none => ""
  | some w => "Parameters (with): " ++ w

/-- The placeholder script body emitted for a `uses` step. -/
def usesPlaceholderSource (uses withParams : String) : String :=
  "\necho \"****************************************************************\"\necho \"TODO: Manually implement GHA Action: "
    ++ uses
    ++ "\"\necho \""
    ++ withParams
    ++ "\"\necho \"****************************************************************\"\n"
    ++ "exit 1\n"

/-- The `ScriptTemplate` for a step: `run` wins over `uses`; a step with
neither yields `none` (the loop's `continue`). -/
def stepScript (baseImage : String) (st : GHAStep) : Option ScriptTemplate :=
  if st.run ≠ "" then
    some { image := baseImage, command := ["bash", "-c"], source := st.run }
  else if st.uses ≠ "" then
    some { image := "alpine:latest", command := ["sh", "-c"]
           source := usesPlaceholderSource st.uses (withParamsOf st) }
  else
    none

/-- The per-step Argo template appended to `stepTemplates`, when the step
is not skipped. -/
def stepTemplateOpt (jobTemplateName baseImage : String) (i : Nat) (st : GHAStep) :
    Option Template :=
  (stepScript baseImage st).map fun sc =>
    { name := (stepRef jobTemplateName i st).template
      steps := [], script := some sc, dag := none }

/-- The job's "steps" template: one `ParallelSteps` entry per GHA step,
in step order (every step is referenced, skipped or not). -/
def jobTemplateOf (job : GHAJob) : Template :=
  { name := sanitizeName job.name
    steps := job.steps.enum.map fun p => [stepRef (sanitizeName job.name) p.1 p.2]
    script := none
    dag := none }

/-- The per-step script templates of a job, in step order, skipped steps
contributing nothing. -/
def stepTemplatesOf (job : GHAJob) : List Template :=
  job.steps.enum.filterMap fun p =>
    stepTemplateOpt (sanitizeName job.name) (baseImageOf job) p.1 p.2

/-- Templates appended for one job: the job template, then its step
templates. -/
def templatesOfJob (job : GHAJob) : List Template :=
  jobTemplateOf job :: stepTemplatesOf job

/-- `jobDependencies` as written, in iteration order:
`jobDependencies[sanitizeName(jobName)] = ghaJob.Needs()` (note: the
needs are stored raw, NOT sanitized). -/
def jobDepsMap (jobs : List GHAJob) : List (String × List String) :=
  jobs.map fun j => (sanitizeName j.name, j.needs)

/-- Go map read: the last write to a key wins. -/
def lookupLast (m : List (String × List String)) (k : String) : Option (List String) :=
  (m.reverse.find? fun p => p.1 == k).map Prod.snd

/-- One `wfv1.DAGTask` of the synthesized `main-dag` template:
dependencies attached only when the recorded needs list is non-empty. -/
def dagTaskOf (deps : List (String × List String)) (n : String) : DAGTask :=
  { name := n
    template := n
    dependencies :=
      match lookupLast deps n with
      | some ds => if 0 < ds.length then ds else []
      | none => [] }

/-- The synthesized DAG template (`dagTemplate`, name `"main-dag"`). -/
def mainDagTemplateOf (jobs : List GHAJob) : Template :=
  { name := "main-dag"
    steps := []
    script := none
    dag := some ((jobs.map fun j => sanitizeName j.name).map
      (dagTaskOf (jobDepsMap jobs))) }

/-- `convertGHAtoArgo` (after parsing): build per-job templates, then
select the entrypoint — a single job's template directly, otherwise the
synthesized `main-dag`; parallelism is the constant 50. -/
def convertGHAtoArgo (wf : WorkflowModel) : ArgoWorkflow :=
  let jobNames := wf.jobs.map fun j => sanitizeName j.name
  let templates := wf.jobs.flatMap templatesOfJob
  match jobNames with
  | [n] =>
      { generateName := sanitizeName wf.name ++ "-"
        entrypoint := n
        templates := templates
        parallelism := 50 }
  | _ =>
      { generateName := sanitizeName wf.name ++ "-"
        entrypoint := "main-dag"
        templates := templates ++ [mainDagTemplateOf wf.jobs]
        parallelism := 50 }

/-! ### Observations on the output document -/

/-- All DAG tasks appearing in the document's templates. -/
def dagTasksOf (a : ArgoWorkflow) : List DAGTask :=
  (a.templates.filterMap Template.dag).flatten

/-- The templates that are not DAG templates (job "steps" templates and
per-step script templates). -/
def nonDagTemplatesOf (a : ArgoWorkflow) : List Template :=
  a.templates.filter fun t => t.dag.isNone

/-- "Identical up to ordering of template entries": equal entrypoint,
generate-name and parallelism; the non-DAG templates agree as multisets;
the DAG task set (with its dependencies) agrees as a multiset. -/
def outputsEquiv (a b : ArgoWorkflow) : Prop :=
  a.generateName = b.generateName ∧
  a.entrypoint = b.entrypoint ∧
  a.parallelism = b.parallelism ∧
  List.Perm (nonDagTemplatesOf a) (nonDagTemplatesOf b) ∧
  List.Perm (dagTasksOf a) (dagTasksOf b)

/-! ### Concrete fixtures used by counterexamples and witnesses -/

/-- Job `A` of the spec's two-job example, with no dependencies. -/
def jobA : GHAJob := { name := "A", steps := [], needs := [], runsOn := [] }

/-- Job `B` of the spec's two-job example, with `needs = {A}`. -/
def jobB : GHAJob := { name := "B", steps := [], needs := ["A"], runsOn := [] }

/-- The spec's two-job example workflow `{A, B}` with `B.needs = {A}`. -/
def wfAB : WorkflowModel := { name := "wf", jobs := [jobA, jobB] }

/-- A job whose id `a` collides with `A` after sanitization. -/
def jobLowerA : GHAJob := { name := "a", steps := [], needs := ["A"], runsOn := [] }

/-- Collision workflow, iteration order `A` then `a`. -/
def wfCollide1 : WorkflowModel := { name := "wf", jobs := [jobA, jobLowerA] }

/-- Collision workflow, iteration order `a` then `A`. -/
def wfCollide2 : WorkflowModel := { name := "wf", jobs := [jobLowerA, jobA] }

/-- A `uses` step (no `run`). -/
def usesStep : GHAStep :=
  { name := "checkout", run := "", uses := "actions/checkout@v4", withRendered := none }

/-- A job with one `uses` step on an Ubuntu runner. -/
def jobUsesUbuntu : GHAJob :=
  { name := "use-job", steps := [usesStep], needs := [], runsOn := ["ubuntu-latest"] }

/-- Single-job workflow exercising the `uses` branch. -/
def wfUses : WorkflowModel := { name := "wf", jobs := [jobUsesUbuntu] }

/-- A `run` step. -/
def runStep : GHAStep :=
  { name := "Build Step", run := "make build", uses := "", withRendered := none }

/-- A job with one `run` step on an Ubuntu runner. -/
def jobRunUbuntu : GHAJob :=
  { name := "build", steps := [runStep], needs := [], runsOn := ["ubuntu-latest"] }

/-- Single-job workflow exercising the `run` branch. -/
def wfBuild : WorkflowModel := { name := "ci", jobs := [jobRunUbuntu] }

/-- The script template emitted for `runStep` in `jobRunUbuntu`. -/
def buildScriptTemplate : Template :=
  { name := "build-build-step", steps := []
    script := some { image := "ubuntu:22.04", command := ["bash", "-c"], source := "make build" }
    dag := none }

/-- A step with `run` and `uses` both absent (skipped by the converter). -/
def emptyStep : GHAStep := { name := "", run := "", uses := "", withRendered := none }

/-- A job whose steps are all empty. -/
def jobEmpty : GHAJob :=
  { name := "noop", steps := [emptyStep, emptyStep], needs := [], runsOn := [] }

/-- Single-job workflow whose only job has only empty steps. -/
def wfEmpty : WorkflowModel := { name := "wf", jobs := [jobEmpty] }

/-- The spec's end-to-end example: jobs `test` and `build`,
`build.needs = [test]`. -/
def jobTest : GHAJob :=
  { name := "test", steps := [runStep], needs := [], runsOn := ["ubuntu-latest"] }

def jobBuildNeedsTest : GHAJob :=
  { name := "build", steps := [runStep], needs := ["test"], runsOn := ["ubuntu-latest"] }

def wfTB1 : WorkflowModel := { name := "ci", jobs := [jobTest, jobBuildNeedsTest] }

def wfTB2 : WorkflowModel := { name := "ci", jobs := [jobBuildNeedsTest, jobTest] }

/-! ### Queue-backed service (worker pool, job queue, result store)

`JobQueue` is a buffered channel of capacity `MaxQueue`; it is modelled
as a FIFO list bounded by `MaxQueue`.  `ResultStore` is a `sync.Map`,
modelled as an append-only association list written once per key by the
worker that processed the job. -/

def MaxQueue : Nat := 100

/-- `ConversionJob`: the unique job id and the raw GHA YAML payload. -/
structure ConversionJob where
  jobID : String
  ghaYAML : String
deriving DecidableEq, Repr

/-- `ConversionResult`: produced by a worker; `isError` is set when
parsing or marshalling failed. -/
structure ConversionResultM where
  jobID : String
  argoYAML : String
  isError : Bool
deriving DecidableEq, Repr

/-- The shared mutable state of the service: the job queue (buffered
channel contents, oldest first) and the result store. -/
structure ServerState where
  jobQueue : List ConversionJob
  resultStore : List (String × ConversionResultM)
deriving DecidableEq, Repr

/-- Responses of `handleConvert` (POST /convert). -/
inductive ConvertResponse
  | methodNotAllowed
  | emptyBody
  | accepted (jobID : String)
  | queueFull
deriving DecidableEq, Repr

/-- `handleConvert`: POST only; reject an empty body; then `select` on
`JobQueue <- job` with a `default` branch — enqueue when the buffered
channel has space, otherwise answer 503 immediately with no state
change.  The freshly generated UUID is passed in as `jobID`. -/
def handleConvert (st : ServerState) (method : String) (body : String)
    (jobID : String) : ServerState × ConvertResponse :=
  if method ≠ "POST" then (st, .methodNotAllowed)
  else if body = "" then (st, .emptyBody)
  else if st.jobQueue.length < MaxQueue then
    ({ st with jobQueue := st.jobQueue ++ [{ jobID := jobID, ghaYAML := body }] },
      .accepted jobID)
  else (st, .queueFull)

/-- One iteration of a worker's loop: dequeue the oldest job, process it
(`process` abstracts parse + `convertGHAtoArgo` + YAML marshalling of one
payload), and store the result under the job's id.  No-op when the queue
is empty. -/
def workerStep (process : String → Except String String) (st : ServerState) :
    ServerState :=
  match st.jobQueue with
  | [] => st
  | job :: rest =>
    let res : ConversionResultM :=
      match process job.ghaYAML with
      | .ok y => { jobID := job.jobID, argoYAML := y, isError := false }
      | .error _ => { jobID := job.jobID, argoYAML := "", isError := true }
    { jobQueue := rest, resultStore := st.resultStore ++ [(job.jobID, res)] }

/-- `n` worker iterations. -/
def runWorkers (process : String → Except String String) :
    Nat → ServerState → ServerState
  | 0, st => st
  | n + 1, st => runWorkers process n (workerStep process st)

/-- A server state whose job queue is at capacity and whose result store
is empty. -/
def fullState : ServerState :=
  { jobQueue := List.replicate MaxQueue { jobID := "busy", ghaYAML := "y" }
    resultStore := [] }

/-! ### Helper lemmas: the sanitizer -/

theorem dnsSafe_of_mem_collapseAux {c : Char} :
    ∀ (b : Bool) (l : List Char), c ∈ collapseAux b l → dnsSafe c = true := by
  intro b l
  induction l generalizing b with
  | nil => intro h; simp [collapseAux] at h
  | cons a as ih =>
    intro h
    simp only [collapseAux] at h
    split at h
    · rcases List.mem_cons.mp h with rfl | h'
      · assumption
      · exact ih false h'
    · split at h
      · exact ih true h
      · rcases List.mem_cons.mp h with rfl | h'
        · decide
        · exact ih true h'

theorem collapseAux_of_all_safe :
    ∀ l : List Char, (∀ c ∈ l, dnsSafe c = true) → collapseAux false l = l := by
  intro l
  induction l with
  | nil => intro _; rfl
  | cons a as ih =>
    intro h
    have ha := h a (List.mem_cons_self a as)
    simp only [collapseAux, if_pos ha]
    rw [ih fun c hc => h c (List.mem_cons_of_mem a hc)]

theorem stripTrailing_cons (a : Char) (as : List Char) :
    stripTrailing (a :: as) =
      match stripTrailing as with
      | [] => if a == '-' then [] else [a]
      | r => a :: r := rfl

theorem mem_of_mem_stripTrailing {c : Char} :
    ∀ l : List Char, c ∈ stripTrailing l → c ∈ l := by
  intro l
  induction l with
  | nil => intro h; simp [stripTrailing] at h
  | cons a as ih =>
    intro h
    simp only [stripTrailing] at h
    split at h
    · split at h
      · simp at h
      · rcases List.mem_singleton.mp h with rfl
        exact List.mem_cons_self _ _
    · rcases List.mem_cons.mp h with rfl | h'
      · exact List.mem_cons_self _ _
      · exact List.mem_cons_of_mem a (ih h')

theorem head?_stripTrailing (l : List Char) :
    stripTrailing l = [] ∨ (stripTrailing l).head? = l.head? := by
  cases l with
  | nil => exact Or.inl rfl
  | cons a as =>
    simp only [stripTrailing]
    split
    · split
      · exact Or.inl rfl
      · exact Or.inr rfl
    · exact Or.inr rfl

theorem stripTrailing_of_getLast?_ne (l : List Char)
    (h : l.getLast? ≠ some '-') : stripTrailing l = l := by
  induction l with
  | nil => rfl
  | cons a as ih =>
    cases as with
    | nil =>
      have ha : (a == '-') = false := by
        simpa [List.getLast?] using h
      simp [stripTrailing, ha]
    | cons b bs =>
      have h' : (b :: bs).getLast? ≠ some '-' := by
        simpa [List.getLast?_cons_cons] using h
      have hr := ih h'
      rw [stripTrailing_cons, hr]

theorem stripLeading_of_head?_ne (l : List Char)
    (h : l.head? ≠ some '-') : stripLeading l = l := by
  cases l with
  | nil => rfl
  | cons a as =>
    have ha : ¬ ((a == '-') = true) := by
      simp only [List.head?_cons, ne_eq] at h
      simp only [beq_iff_eq]
      intro hc; exact h (by rw [hc])
    exact List.dropWhile_cons_of_neg ha

theorem toLower_of_dnsSafe {c : Char} (h : dnsSafe c = true) :
    c.toLower = c := by
  simp only [dnsSafe, Bool.or_eq_true, Bool.and_eq_true, decide_eq_true_eq,
    beq_iff_eq] at h
  show (if c.toNat ≥ 65 ∧ c.toNat ≤ 90 then Char.ofNat (c.toNat + 32) else c) = c
  rw [if_neg (by omega)]

theorem dnsSafe_mem_sanitizeName (s : String) :
    ∀ c ∈ (sanitizeName s).data, dnsSafe c = true := by
  intro c hc
  unfold sanitizeName at hc
  split at hc
  · have hall : ("unnamed".data).all dnsSafe = true := by decide
    exact List.all_eq_true.mp hall c hc
  · have h1 : c ∈ stripTrailing (stripLeading (collapseUnsafe (s.data.map Char.toLower))) :=
      List.take_subset 63 _ hc
    have h2 := mem_of_mem_stripTrailing _ h1
    have h3 : c ∈ collapseUnsafe (s.data.map Char.toLower) :=
      List.dropWhile_subset _ h2
    exact dnsSafe_of_mem_collapseAux false _ h3

theorem length_sanitizeName_le (s : String) :
    (sanitizeName s).data.length ≤ 63 := by
  unfold sanitizeName
  split
  · decide
  · simp

theorem head?_take_of_pos {α : Type} (l : List α) {n : Nat} (h : 0 < n) :
    (l.take n).head? = l.head? := by
  cases l with
  | nil => simp
  | cons a as =>
    cases n with
    | zero => omega
    | succ m => simp [List.take]

theorem head?_sanitizeName_ne_dash (s : String) :
    (sanitizeName s).data.head? ≠ some '-' := by
  unfold sanitizeName
  split
  · decide
  · show ((stripTrailing (stripLeading (collapseUnsafe
      (s.data.map Char.toLower)))).take 63).head? ≠ some '-'
    rw [head?_take_of_pos _ (by omega)]
    rcases head?_stripTrailing (stripLeading (collapseUnsafe (s.data.map Char.toLower))) with h | h
    · rw [h]; simp
    · rw [h]
      have hx := List.head?_dropWhile_not (fun c => c == '-')
        (collapseUnsafe (s.data.map Char.toLower))
      unfold stripLeading
      intro hcontra
      rw [hcontra] at hx
      simp at hx

theorem sanitizeName_fixed (z : String) (hne : z ≠ "")
    (hsafe : ∀ c ∈ z.data, dnsSafe c = true)
    (hhead : z.data.head? ≠ some '-')
    (hlast : z.data.getLast? ≠ some '-')
    (hlen : z.data.length ≤ 63) :
    sanitizeName z = z := by
  unfold sanitizeName
  rw [if_neg hne]
  have hmap : z.data.map Char.toLower = z.data := by
    conv_rhs => rw [← List.map_id z.data]
    exact List.map_congr_left fun c hc => toLower_of_dnsSafe (hsafe c hc)
  rw [hmap]
  rw [show collapseUnsafe z.data = z.data from collapseAux_of_all_safe _ hsafe]
  rw [stripLeading_of_head?_ne _ hhead]
  rw [stripTrailing_of_getLast?_ne _ hlast]
  rw [List.take_of_length_le hlen]

/-! ### Helper lemmas: the converter -/

theorem convert_eq_of_single (w : WorkflowModel) (j : GHAJob) (h : w.jobs = [j]) :
    convertGHAtoArgo w =
      { generateName := sanitizeName w.name ++ "-"
        entrypoint := sanitizeName j.name
        templates := templatesOfJob j ++ []
        parallelism := 50 } := by
  unfold convertGHAtoArgo
  rw [h]
  rfl

theorem convert_eq_of_length_ne_one (w : WorkflowModel) (h : w.jobs.length ≠ 1) :
    convertGHAtoArgo w =
      { generateName := sanitizeName w.name ++ "-"
        entrypoint := "main-dag"
        templates := w.jobs.flatMap templatesOfJob ++ [mainDagTemplateOf w.jobs]
        parallelism := 50 } := by
  unfold convertGHAtoArgo
  rcases hw : w.jobs with _ | ⟨j1, _ | ⟨j2, tl⟩⟩
  · rfl
  · exact absurd (by rw [hw]; rfl) h
  · rfl

theorem dag_eq_none_of_mem_templatesOfJob {t : Template} {j : GHAJob}
    (h : t ∈ templatesOfJob j) : t.dag = none := by
  rcases List.mem_cons.mp h with rfl | h'
  · rfl
  · rcases List.mem_filterMap.mp h' with ⟨p, _, hp⟩
    unfold stepTemplateOpt at hp
    rcases Option.map_eq_some'.mp hp with ⟨sc, _, rfl⟩
    rfl

theorem dag_eq_none_of_mem_flatMap {t : Template} {l : List GHAJob}
    (h : t ∈ l.flatMap templatesOfJob) : t.dag = none := by
  rcases List.mem_flatMap.mp h with ⟨j, _, ht⟩
  exact dag_eq_none_of_mem_templatesOfJob ht

theorem flatMap_subset_templates (w : WorkflowModel) :
    ∀ t ∈ w.jobs.flatMap templatesOfJob, t ∈ (convertGHAtoArgo w).templates := by
  intro t ht
  by_cases h : w.jobs.length = 1
  · rcases List.length_eq_one.mp h with ⟨j, hj⟩
    rw [convert_eq_of_single w j hj]
    rw [hj] at ht
    simp only [List.flatMap_cons, List.flatMap_nil, List.append_nil] at ht
    exact List.mem_append_left _ ht
  · rw [convert_eq_of_length_ne_one w h]
    exact List.mem_append_left _ ht

theorem templatesOfJob_subset_templates (w : WorkflowModel) (j : GHAJob)
    (hj : j ∈ w.jobs) : ∀ t ∈ templatesOfJob j, t ∈ (convertGHAtoArgo w).templates :=
  fun t ht => flatMap_subset_templates w t (List.mem_flatMap_of_mem hj ht)

theorem snd_mem_of_mem_enum {α : Type} {l : List α} {i : Nat} {a : α}
    (h : (i, a) ∈ l.enum) : a ∈ l :=
  List.getElem?_mem (List.mk_mem_enum_iff_getElem?.mp h)

theorem nonDag_of_length_ne_one (w : WorkflowModel) (h : w.jobs.length ≠ 1) :
    nonDagTemplatesOf (convertGHAtoArgo w) = w.jobs.flatMap templatesOfJob := by
  rw [convert_eq_of_length_ne_one w h]
  unfold nonDagTemplatesOf
  simp only [List.filter_append]
  rw [List.filter_eq_self.mpr fun t ht => by
    rw [dag_eq_none_of_mem_flatMap ht]; rfl]
  rw [show (List.filter (fun t => t.dag.isNone) [mainDagTemplateOf w.jobs]) = [] from rfl]
  exact List.append_nil _

theorem dagTasks_of_length_ne_one (w : WorkflowModel) (h : w.jobs.length ≠ 1) :
    dagTasksOf (convertGHAtoArgo w) =
      (w.jobs.map fun j => sanitizeName j.name).map (dagTaskOf (jobDepsMap w.jobs)) := by
  rw [convert_eq_of_length_ne_one w h]
  unfold dagTasksOf
  simp only [List.filterMap_append]
  rw [List.filterMap_eq_nil_iff.mpr fun t ht => by
    rw [dag_eq_none_of_mem_flatMap ht]]
  rw [show (List.filterMap Template.dag [mainDagTemplateOf w.jobs]) =
    [((w.jobs.map fun j => sanitizeName j.name).map (dagTaskOf (jobDepsMap w.jobs)))] from rfl]
  simp

/-! ### Claim C1 -/

/-- C1: the claim says every DAGTask's dependencies are the job's needs
with every element sanitized; in the code the needs are attached raw.
On jobs `{A, B}` with `B.needs = {A}` the task for `B` carries
`dependencies = ["A"]`, not `["a"]`, and `"A"` names no task of the
synthesized DAG (task names are sanitized), so the emitted dependency
dangles. -/
theorem c1_dependencies_not_sanitized :
    dagTasksOf (convertGHAtoArgo wfAB) =
        [{ name := "a", template := "a", dependencies := [] },
         { name := "b", template := "b", dependencies := ["A"] }] ∧
      (["A"] : List String) ≠ ["a"] ∧
      (dagTasksOf (convertGHAtoArgo wfAB)).map DAGTask.name = ["a", "b"] := by
  refine ⟨by decide, by decide, by decide⟩

/-! ### Claim C2 -/

/-- C2 counterexample: `sanitize` is not idempotent on `"-"`.
`sanitize("-")` strips the edge dash down to the empty string, and
re-sanitizing the empty string produces the fallback `"unnamed"`. -/
theorem c2_idempotent_counterexample :
    sanitizeName (sanitizeName "-") ≠ sanitizeName "-" := by decide

/-- C2 (amended): `sanitize(sanitize(x)) = sanitize(x)` for every `x`
whose sanitized form is non-empty and does not end in `-` (the two
failure modes being: all characters sanitize away, leaving the empty
string, which re-sanitizes to the fallback; or the 63-character
truncation cuts just after a `-`, which re-sanitizing strips). -/
theorem c2_idempotent_amended (x : String)
    (h1 : sanitizeName x ≠ "")
    (h2 : (sanitizeName x).data.getLast? ≠ some '-') :
    sanitizeName (sanitizeName x) = sanitizeName x :=
  sanitizeName_fixed _ h1 (dnsSafe_mem_sanitizeName x)
    (head?_sanitizeName_ne_dash x) h2 (length_sanitizeName_le x)

theorem c2_idempotent_amended_witness :
    (sanitizeName "Hello World!" ≠ "" ∧
      (sanitizeName "Hello World!").data.getLast? ≠ some '-') ∧
      sanitizeName (sanitizeName "Hello World!") = sanitizeName "Hello World!" :=
  ⟨⟨by decide, by decide⟩, c2_idempotent_amended "Hello World!" (by decide) (by decide)⟩

/-! ### Claim C3 -/

/-- C3 counterexample: the non-empty input `"-"` sanitizes to the empty
string — neither the fallback constant nor a non-empty label. -/
theorem c3_nonempty_counterexample :
    sanitizeName "-" = "" ∧ ("-" : String) ≠ "" ∧ sanitizeName "-" ≠ "unnamed" := by
  refine ⟨by decide, by decide, by decide⟩

/-- C3 (amended): for every input `x`, `sanitize(x)` matches
`^[a-z0-9-]{0,63}$` — every character is in `[a-z0-9-]` and the length
is at most 63.  The claim's non-emptiness half fails: inputs with no
character surviving sanitization (e.g. `"-"`) yield the empty string
without the fallback constant being used. -/
theorem c3_charset_amended (x : String) :
    (sanitizeName x).data.all dnsSafe = true ∧ (sanitizeName x).data.length ≤ 63 :=
  ⟨List.all_eq_true.mpr (dnsSafe_mem_sanitizeName x), length_sanitizeName_le x⟩

/-! ### Claim C4 -/

/-- C4: with exactly one job, the entrypoint is the sanitized job id and
no template of the document is a DAG template; with more than one job,
the entrypoint is the reserved name `main-dag`, exactly one DAG template
(the synthesized one) appears, and it holds one task per job. -/
theorem c4_entrypoint_policy (w : WorkflowModel) :
    (∀ j, w.jobs = [j] →
      (convertGHAtoArgo w).entrypoint = sanitizeName j.name ∧
      ∀ t ∈ (convertGHAtoArgo w).templates, t.dag = none) ∧
    (1 < w.jobs.length →
      (convertGHAtoArgo w).entrypoint = "main-dag" ∧
      ((convertGHAtoArgo w).templates.filter fun t => t.dag.isSome) =
        [mainDagTemplateOf w.jobs] ∧
      ((mainDagTemplateOf w.jobs).dag.getD []).length = w.jobs.length) := by
  constructor
  · intro j hj
    rw [convert_eq_of_single w j hj]
    refine ⟨rfl, ?_⟩
    intro t ht
    simp only [List.append_nil] at ht
    exact dag_eq_none_of_mem_templatesOfJob ht
  · intro hlen
    rw [convert_eq_of_length_ne_one w (by omega)]
    refine ⟨rfl, ?_, ?_⟩
    · simp only [List.filter_append]
      rw [List.filter_eq_nil_iff.mpr fun t ht => by
        rw [dag_eq_none_of_mem_flatMap ht]; exact Bool.false_ne_true]
      rfl
    · simp [mainDagTemplateOf]

theorem c4_witness :
    ((convertGHAtoArgo wfBuild).entrypoint = sanitizeName jobRunUbuntu.name ∧
      ∀ t ∈ (convertGHAtoArgo wfBuild).templates, t.dag = none) ∧
    ((convertGHAtoArgo wfAB).entrypoint = "main-dag" ∧
      ((convertGHAtoArgo wfAB).templates.filter fun t => t.dag.isSome) =
        [mainDagTemplateOf wfAB.jobs] ∧
      ((mainDagTemplateOf wfAB.jobs).dag.getD []).length = wfAB.jobs.length) :=
  ⟨(c4_entrypoint_policy wfBuild).1 jobRunUbuntu rfl,
    (c4_entrypoint_policy wfAB).2 (by decide)⟩

/-! ### Claim C5 -/

/-- C5 counterexample: the claim extends the image rule to `uses` steps,
but the converter hardcodes `alpine:latest` for the `uses` placeholder.
On a job with `runsOn = ["ubuntu-latest"]` and a `uses` step, the emitted
script image is `alpine:latest`, not the mapper's `ubuntu:22.04`. -/
theorem c5_uses_image_counterexample :
    ((convertGHAtoArgo wfUses).templates.filterMap Template.script).map
        ScriptTemplate.image = ["alpine:latest"] ∧
      baseImageOf jobUsesUbuntu = "ubuntu:22.04" ∧
      ("alpine:latest" : String) ≠ "ubuntu:22.04" := by
  refine ⟨by decide, by decide, by decide⟩

/-- C5 (amended): every per-step script template of a job appears in the
translated document; a `run` step's image is the Image Mapper applied to
the job's first `runsOn` label (hard default when the list is empty),
while a `uses` step's image is always the fixed `alpine:latest`,
regardless of `runsOn`. -/
theorem c5_image_amended (w : WorkflowModel) (j : GHAJob) (t : Template)
    (hj : j ∈ w.jobs) (ht : t ∈ stepTemplatesOf j) :
    t ∈ (convertGHAtoArgo w).templates ∧
    (baseImageOf j = match j.runsOn with
      | [] => "alpine:latest"
      | r :: _ => mapRunsOnToImage r) ∧
    ∃ st ∈ j.steps, ∃ sc, t.script = some sc ∧
      ((st.run ≠ "" ∧ sc.image = baseImageOf j ∧ sc.command = ["bash", "-c"] ∧
          sc.source = st.run) ∨
       (st.run = "" ∧ st.uses ≠ "" ∧ sc.image = "alpine:latest")) := by
  refine ⟨templatesOfJob_subset_templates w j hj t (List.mem_cons_of_mem _ ht), rfl, ?_⟩
  rcases List.mem_filterMap.mp ht with ⟨p, hpmem, hp⟩
  refine ⟨p.2, snd_mem_of_mem_enum hpmem, ?_⟩
  unfold stepTemplateOpt at hp
  rcases Option.map_eq_some'.mp hp with ⟨sc, hsc, rfl⟩
  refine ⟨sc, rfl, ?_⟩
  unfold stepScript at hsc
  by_cases hrun : p.2.run ≠ ""
  · rw [if_pos hrun] at hsc
    rcases Option.some.inj hsc with rfl
    exact Or.inl ⟨hrun, rfl, rfl, rfl⟩
  · rw [if_neg hrun] at hsc
    push_neg at hrun
    by_cases huses : p.2.uses ≠ ""
    · rw [if_pos huses] at hsc
      rcases Option.some.inj hsc with rfl
      exact Or.inr ⟨hrun, huses, rfl⟩
    · rw [if_neg huses] at hsc
      exact absurd hsc (Option.some_ne_none _).symm

theorem c5_witness :
    (jobRunUbuntu ∈ wfBuild.jobs ∧ buildScriptTemplate ∈ stepTemplatesOf jobRunUbuntu) ∧
    (buildScriptTemplate ∈ (convertGHAtoArgo wfBuild).templates ∧
      ∃ st ∈ jobRunUbuntu.steps, ∃ sc, buildScriptTemplate.script = some sc ∧
        ((st.run ≠ "" ∧ sc.image = baseImageOf jobRunUbuntu ∧
            sc.command = ["bash", "-c"] ∧ sc.source = st.run) ∨
         (st.run = "" ∧ st.uses ≠ "" ∧ sc.image = "alpine:latest"))) := by
  have h := c5_image_amended wfBuild jobRunUbuntu buildScriptTemplate
    (by decide) (by decide)
  exact ⟨⟨by decide, by decide⟩, h.1, h.2.2⟩

/-! ### Claim C9 -/

/-- C9: a job whose steps all have `run` and `uses` absent yields zero
script templates, yet its steps-template is still in the document; every
skipped step contributes no script template, while the steps-template
references all steps in the job's step order. -/
theorem c9_empty_steps (w : WorkflowModel) (j : GHAJob) (hj : j ∈ w.jobs) :
    ((∀ st ∈ j.steps, st.run = "" ∧ st.uses = "") → stepTemplatesOf j = []) ∧
    jobTemplateOf j ∈ (convertGHAtoArgo w).templates ∧
    (jobTemplateOf j).steps =
      j.steps.enum.map (fun p => [stepRef (sanitizeName j.name) p.1 p.2]) ∧
    ∀ (i : Nat) (st : GHAStep), st.run = "" → st.uses = "" →
      stepTemplateOpt (sanitizeName j.name) (baseImageOf j) i st = none := by
  have hskip : ∀ (a b : String) (i : Nat) (st : GHAStep), st.run = "" → st.uses = "" →
      stepTemplateOpt a b i st = none := by
    intro a b i st h1 h2
    unfold stepTemplateOpt stepScript
    rw [if_neg (by simpa using h1), if_neg (by simpa using h2)]
    rfl
  refine ⟨?_, ?_, rfl, hskip _ _⟩
  · intro hall
    unfold stepTemplatesOf
    rw [List.filterMap_eq_nil_iff]
    intro p hp
    have hmem := snd_mem_of_mem_enum hp
    exact hskip _ _ p.1 p.2 (hall p.2 hmem).1 (hall p.2 hmem).2
  · exact templatesOfJob_subset_templates w j hj _ (List.mem_cons_self _ _)

theorem c9_witness :
    jobEmpty ∈ wfEmpty.jobs ∧ stepTemplatesOf jobEmpty = [] ∧
      jobTemplateOf jobEmpty ∈ (convertGHAtoArgo wfEmpty).templates :=
  ⟨by decide, (c9_empty_steps wfEmpty jobEmpty (by decide)).1 (by decide),
    (c9_empty_steps wfEmpty jobEmpty (by decide)).2.1⟩

/-! ### Claim C10 -/

/-- C10: with zero jobs the converter takes the multi-job branch and
emits exactly the synthesized `main-dag` template with zero tasks, the
entrypoint being `main-dag`. -/
theorem c10_zero_jobs (w : WorkflowModel) (h : w.jobs = []) :
    (convertGHAtoArgo w).entrypoint = "main-dag" ∧
    (convertGHAtoArgo w).templates =
      [{ name := "main-dag", steps := [], script := none, dag := some [] }] := by
  rw [convert_eq_of_length_ne_one w (by rw [h]; decide)]
  rw [h]
  exact ⟨rfl, rfl⟩

theorem c10_witness :
    (convertGHAtoArgo { name := "empty", jobs := [] }).entrypoint = "main-dag" ∧
    (convertGHAtoArgo { name := "empty", jobs := [] }).templates =
      [{ name := "main-dag", steps := [], script := none, dag := some [] }] :=
  c10_zero_jobs { name := "empty", jobs := [] } rfl

/-! ### Claim C6 -/

theorem find?_eq_some_of_nodup_keys :
    ∀ (l : List (String × List String)) (k : String) (v : List String),
      (l.map Prod.fst).Nodup → (k, v) ∈ l →
      l.find? (fun p => p.1 == k) = some (k, v) := by
  intro l
  induction l with
  | nil => intro k v _ hm; simp at hm
  | cons a t ih =>
    intro k v hn hm
    have hn' : a.1 ∉ t.map Prod.fst ∧ (t.map Prod.fst).Nodup :=
      List.nodup_cons.mp hn
    by_cases hk : a.1 = k
    · rcases List.mem_cons.mp hm with rfl | hmt
      · exact List.find?_cons_of_pos t (by simp [hk])
      · exact absurd (List.mem_map.mpr ⟨(k, v), hmt, rfl⟩) (hk ▸ hn'.1)
    · rcases List.mem_cons.mp hm with rfl | hmt
      · exact absurd rfl hk
      · rw [List.find?_cons_of_neg t (by simp [hk])]
        exact ih k v hn'.2 hmt

theorem lookupLast_eq_of_perm (m1 m2 : List (String × List String))
    (hp : List.Perm m1 m2) (hn : (m1.map Prod.fst).Nodup) (k : String) :
    lookupLast m1 k = lookupLast m2 k := by
  have hn2 : (m2.map Prod.fst).Nodup := (hp.map Prod.fst).nodup_iff.mp hn
  unfold lookupLast
  by_cases hk : ∃ v, (k, v) ∈ m1
  · rcases hk with ⟨v, hv⟩
    rw [find?_eq_some_of_nodup_keys m1.reverse k v
      (by simpa using hn) (List.mem_reverse.mpr hv)]
    rw [find?_eq_some_of_nodup_keys m2.reverse k v
      (by simpa using hn2) (List.mem_reverse.mpr (hp.mem_iff.mp hv))]
  · push_neg at hk
    rw [List.find?_eq_none.mpr fun x hx => by
      simp only [beq_iff_eq]
      intro hxk
      exact hk x.2 (hxk ▸ (by simpa using List.mem_reverse.mp hx))]
    rw [List.find?_eq_none.mpr fun x hx => by
      simp only [beq_iff_eq]
      intro hxk
      exact hk x.2 (hxk ▸ (by simpa using hp.mem_iff.mpr (List.mem_reverse.mp hx)))]

theorem dagTaskOf_eq_of_perm (l1 l2 : List GHAJob)
    (hp : List.Perm l1 l2)
    (hn : (l1.map fun j => sanitizeName j.name).Nodup) :
    dagTaskOf (jobDepsMap l1) = dagTaskOf (jobDepsMap l2) := by
  funext n
  unfold dagTaskOf
  have hpm : List.Perm (jobDepsMap l1) (jobDepsMap l2) := by
    unfold jobDepsMap
    exact hp.map fun j => (sanitizeName j.name, j.needs)
  rw [lookupLast_eq_of_perm (jobDepsMap l1) (jobDepsMap l2) hpm
    (by simpa [jobDepsMap, List.map_map, Function.comp] using hn) n]

theorem outputsEquiv_refl (a : ArgoWorkflow) : outputsEquiv a a :=
  ⟨rfl, rfl, rfl, List.Perm.refl _, List.Perm.refl _⟩

/-- C6 counterexample: two iteration orders of the same job map — jobs
`A` and `a`, whose ids collide after sanitization — give documents whose
DAG tasks carry different dependency sets (`["A"]` vs `[]`), so the two
translations differ beyond template ordering. -/
theorem c6_counterexample :
    List.Perm wfCollide1.jobs wfCollide2.jobs ∧
      ¬ outputsEquiv (convertGHAtoArgo wfCollide1) (convertGHAtoArgo wfCollide2) := by
  constructor
  · exact List.Perm.swap jobLowerA jobA []
  · intro h
    have hm := h.2.2.2.2.mem_iff.mp
      (show ({ name := "a", template := "a", dependencies := ["A"] } : DAGTask)
          ∈ dagTasksOf (convertGHAtoArgo wfCollide1) by decide)
    revert hm
    decide

/-- C6 (amended): translating the same source model under any two job
iteration orders yields documents identical up to ordering of template
entries — equal entrypoint, generate-name and parallelism, permuted
non-DAG templates and permuted DAG task set — provided the sanitized job
ids are pairwise distinct.  (When two job ids collide after sanitization,
the last map write wins and the attached dependencies become
order-dependent, as the counterexample shows.) -/
theorem c6_translation_order_stable (m : String) (l1 l2 : List GHAJob)
    (hp : List.Perm l1 l2)
    (hn : (l1.map fun j => sanitizeName j.name).Nodup) :
    outputsEquiv (convertGHAtoArgo { name := m, jobs := l1 })
      (convertGHAtoArgo { name := m, jobs := l2 }) := by
  by_cases hlen : l1.length = 1
  · rcases List.length_eq_one.mp hlen with ⟨j, hj⟩
    have h2 : l2 = [j] := (List.singleton_perm.mp (hj ▸ hp)).symm
    rw [hj, h2]
    exact outputsEquiv_refl _
  · have hlen2 : l2.length ≠ 1 := by rw [← hp.length_eq]; exact hlen
    refine ⟨?_, ?_, ?_, ?_, ?_⟩
    · rw [convert_eq_of_length_ne_one _ hlen, convert_eq_of_length_ne_one _ hlen2]
    · rw [convert_eq_of_length_ne_one _ hlen, convert_eq_of_length_ne_one _ hlen2]
    · rw [convert_eq_of_length_ne_one _ hlen, convert_eq_of_length_ne_one _ hlen2]
    · rw [nonDag_of_length_ne_one _ hlen, nonDag_of_length_ne_one _ hlen2]
      exact hp.flatMap_right templatesOfJob
    · rw [dagTasks_of_length_ne_one _ hlen, dagTasks_of_length_ne_one _ hlen2]
      rw [dagTaskOf_eq_of_perm l1 l2 hp hn]
      exact (hp.map fun j => sanitizeName j.name).map (dagTaskOf (jobDepsMap l2))

theorem c6_witness :
    (List.Perm wfTB1.jobs wfTB2.jobs ∧
      (wfTB1.jobs.map fun j => sanitizeName j.name).Nodup) ∧
    outputsEquiv (convertGHAtoArgo wfTB1) (convertGHAtoArgo wfTB2) :=
  ⟨⟨List.Perm.swap jobBuildNeedsTest jobTest [], by decide⟩,
    c6_translation_order_stable "ci" wfTB1.jobs wfTB2.jobs
      (List.Perm.swap jobBuildNeedsTest jobTest []) (by decide)⟩

/-! ### Claim C7 -/

theorem not_mem_results_runWorkers (f : String → Except String String)
    (jid : String) :
    ∀ (n : Nat) (s : ServerState),
      jid ∉ s.jobQueue.map ConversionJob.jobID →
      jid ∉ s.resultStore.map Prod.fst →
      jid ∉ (runWorkers f n s).resultStore.map Prod.fst := by
  intro n
  induction n with
  | zero => intro s _ h2; exact h2
  | succ m ih =>
    intro s h1 h2
    show jid ∉ (runWorkers f m (workerStep f s)).resultStore.map Prod.fst
    cases hq : s.jobQueue with
    | nil =>
      have hs : workerStep f s = s := by unfold workerStep; rw [hq]
      rw [hs]
      exact ih s h1 h2
    | cons job rest =>
      rw [hq] at h1
      simp only [List.map_cons, List.mem_cons, not_or] at h1
      apply ih
      · show jid ∉ (workerStep f s).jobQueue.map ConversionJob.jobID
        unfold workerStep
        rw [hq]
        exact h1.2
      · show jid ∉ (workerStep f s).resultStore.map Prod.fst
        unfold workerStep
        rw [hq]
        simp only [List.map_append, List.mem_append, not_or]
        exact ⟨h2, by simpa using h1.1⟩

/-- C7: with the queue at capacity, `handleConvert` answers `queueFull`
immediately and leaves the whole state (queue and result store)
untouched; a fresh job id submitted in that request never appears in the
result store, however many worker iterations follow. -/
theorem c7_queue_full_rejected (s : ServerState) (b jid : String)
    (f : String → Except String String)
    (hfull : MaxQueue ≤ s.jobQueue.length)
    (hb : b ≠ "")
    (hq : jid ∉ s.jobQueue.map ConversionJob.jobID)
    (hs : jid ∉ s.resultStore.map Prod.fst) :
    handleConvert s "POST" b jid = (s, ConvertResponse.queueFull) ∧
    ∀ n, jid ∉ (runWorkers f n s).resultStore.map Prod.fst := by
  constructor
  · unfold handleConvert
    rw [if_neg (by simp), if_neg hb, if_neg (by omega)]
  · intro n
    exact not_mem_results_runWorkers f jid n s hq hs

theorem c7_witness :
    (MaxQueue ≤ fullState.jobQueue.length ∧ ("yaml" : String) ≠ "" ∧
      "fresh" ∉ fullState.jobQueue.map ConversionJob.jobID ∧
      "fresh" ∉ fullState.resultStore.map Prod.fst) ∧
    (handleConvert fullState "POST" "yaml" "fresh" =
        (fullState, ConvertResponse.queueFull) ∧
      ∀ n, "fresh" ∉ (runWorkers Except.ok n fullState).resultStore.map Prod.fst) :=
  ⟨⟨by decide, by decide, by decide, by decide⟩,
    c7_queue_full_rejected fullState "yaml" "fresh" Except.ok
      (by decide) (by decide) (by decide) (by decide)⟩

/-! ### Claim C8 -/

theorem isPrefixList_self_append :
    ∀ l r : List Char, isPrefixList l (l ++ r) = true := by
  intro l
  induction l with
  | nil => intro r; rfl
  | cons a as ih => intro r; simp [isPrefixList, ih]

theorem containsSub_nil_left : ∀ l : List Char, containsSub [] l = true := by
  intro l
  cases l <;> rfl

theorem containsSub_append (a b c : List Char) :
    containsSub b (a ++ (b ++ c)) = true := by
  induction a with
  | nil =>
    simp only [List.nil_append]
    cases b with
    | nil => exact containsSub_nil_left c
    | cons s ss =>
      show (isPrefixList (s :: ss) (s :: (ss ++ c)) || _) = true
      rw [show isPrefixList (s :: ss) (s :: (ss ++ c)) = true by
        simp [isPrefixList, isPrefixList_self_append]]
      rfl
  | cons x xs ih =>
    show (_ || containsSub b (xs ++ (b ++ c))) = true
    rw [ih, Bool.or_true]

theorem strContains_of_split (s u a c : String)
    (h : s = a ++ (u ++ c)) : strContains s u = true := by
  subst h
  show containsSub u.data ((a ++ (u ++ c)).data) = true
  exact containsSub_append a.data u.data c.data

/-- C8: every `uses` step yields a placeholder script template in the
translated document on the fixed `alpine:latest`/`sh -c` container whose
source echoes the action reference and the rendered `with` parameters
and ends in `exit 1` — the action is not translated into an executable
equivalent. -/
theorem c8_uses_placeholder (w : WorkflowModel) (j : GHAJob) (st : GHAStep)
    (i : Nat) (hj : j ∈ w.jobs) (hst : (i, st) ∈ j.steps.enum)
    (hrun : st.run = "") (huses : st.uses ≠ "") :
    ∃ t ∈ (convertGHAtoArgo w).templates,
      t.script = some { image := "alpine:latest", command := ["sh", "-c"]
                        source := usesPlaceholderSource st.uses (withParamsOf st) } ∧
      strContains (usesPlaceholderSource st.uses (withParamsOf st)) st.uses = true ∧
      strContains (usesPlaceholderSource st.uses (withParamsOf st)) (withParamsOf st)
        = true ∧
      ∃ p, usesPlaceholderSource st.uses (withParamsOf st) = p ++ "exit 1\n" := by
  have hscript : stepScript (baseImageOf j) st =
      some { image := "alpine:latest", command := ["sh", "-c"]
             source := usesPlaceholderSource st.uses (withParamsOf st) } := by
    unfold stepScript
    rw [if_neg (by simpa using hrun), if_pos huses]
  refine ⟨{ name := (stepRef (sanitizeName j.name) i st).template, steps := []
            script := some { image := "alpine:latest", command := ["sh", "-c"]
                             source := usesPlaceholderSource st.uses (withParamsOf st) }
            dag := none }, ?_, rfl, ?_, ?_, ?_⟩
  · apply templatesOfJob_subset_templates w j hj
    apply List.mem_cons_of_mem
    exact List.mem_filterMap.mpr ⟨(i, st), hst, by
      unfold stepTemplateOpt
      rw [hscript]
      rfl⟩
  · apply strContains_of_split _ _
      "\necho \"****************************************************************\"\necho \"TODO: Manually implement GHA Action: "
      ("\"\necho \""
        ++ withParamsOf st
        ++ "\"\necho \"****************************************************************\"\n"
        ++ "exit 1\n")
    unfold usesPlaceholderSource
    simp [String.append_assoc]
  · apply strContains_of_split _ _
      ("\necho \"****************************************************************\"\necho \"TODO: Manually implement GHA Action: "
        ++ st.uses ++ "\"\necho \"")
      ("\"\necho \"****************************************************************\"\n"
        ++ "exit 1\n")
    unfold usesPlaceholderSource
    simp [String.append_assoc]
  · exact ⟨"\necho \"****************************************************************\"\necho \"TODO: Manually implement GHA Action: "
      ++ st.uses ++ "\"\necho \"" ++ withParamsOf st
      ++ "\"\necho \"****************************************************************\"\n", by
        unfold usesPlaceholderSource
        rfl⟩

theorem c8_witness :
    (jobUsesUbuntu ∈ wfUses.jobs ∧ (0, usesStep) ∈ jobUsesUbuntu.steps.enum ∧
      usesStep.run = "" ∧ usesStep.uses ≠ "") ∧
    ∃ t ∈ (convertGHAtoArgo wfUses).templates,
      t.script = some { image := "alpine:latest", command := ["sh", "-c"]
                        source := usesPlaceholderSource usesStep.uses (withParamsOf usesStep) } ∧
      strContains (usesPlaceholderSource usesStep.uses (withParamsOf usesStep))
        usesStep.uses = true ∧
      strContains (usesPlaceholderSource usesStep.uses (withParamsOf usesStep))
        (withParamsOf usesStep) = true ∧
      ∃ p, usesPlaceholderSource usesStep.uses (withParamsOf usesStep) =
        p ++ "exit 1\n" :=
  ⟨⟨by decide, by decide, by decide, by decide⟩,
    c8_uses_placeholder wfUses jobUsesUbuntu usesStep 0
      (by decide) (by decide) (by decide) (by decide)⟩

end GhaConverter

